import Mathlib

/-!
Verification of the wiki-search core of `src/cogs/wiki.py` (the `Wiki` cog).

The Python module is embedded shallowly:

* Python `dict` (insertion ordered, last write wins) is modelled as an
  association list `List (String × Nat)` together with `dlookup`, `dinsert`
  (`d[k] = v`) and `dupdate` (`d.update(other)`).
* The remote MediaWiki API is modelled as an environment: for the paginated
  `list=allpages` query, each namespace is mapped to the sequence of responses
  the remote returns for the successive requests of the pagination loop
  (`none` in that sequence models a request that raises); for the
  `prop=info&inprop=url` query, a function from page id to the optional
  `fullurl` field of the response (`none` models an id missing from the
  `pages` object, which makes the subscription in the Python list
  comprehension raise).
* `time.monotonic()` is modelled as a `Nat` supplied by the caller.
* Mutation of `self.all_titles` / `self.all_titles_stamp` is modelled by
  explicit state passing of `WikiState`.
* Failures are modelled with `Option`/`Except`; following the spec's error
  taxonomy (§7), the exception raised when a response is missing an expected
  field is rendered as `RemoteError.remoteProtocolError`, and where the exact
  Python exception class matters (the `except ValueError` clause of
  `wikisearch`) outcomes are tracked at the level of Python exception
  classes (`PyExc`).
-/

/-- Models Python `s.startswith(pre)`: `pre` is a prefix of the character
sequence of `s`.  Stated over `String.data` so that it evaluates by kernel
reduction. -/
def pyStartswith (s pre : String) : Bool :=
  pre.data.isPrefixOf s.data

/-- Python dict lookup `m[k]` (first entry with the key; under the no-duplicate
invariant maintained by `dinsert` this is the unique entry). -/
def dlookup : List (String × Nat) → String → Option Nat
  | [], _ => none
  | (k0, v0) :: m, k => if k0 = k then some v0 else dlookup m k

/-- Python dict assignment `m[k] = v`: update the entry in place if the key is
present, else append a new entry. -/
def dinsert : List (String × Nat) → String → Nat → List (String × Nat)
  | [], k, v => [(k, v)]
  | (k0, v0) :: m, k, v =>
    if k0 = k then (k0, v) :: m else (k0, v0) :: dinsert m k v

/-- Python `m.update(other)`: assign each entry of `other`, in order, into `m`. -/
def dupdate (m other : List (String × Nat)) : List (String × Nat) :=
  other.foldl (fun acc p => dinsert acc p.1 p.2) m

/-- Python `m.keys()`. -/
def dkeys (m : List (String × Nat)) : List String :=
  m.map Prod.fst

/-- One item of the `allpages` list of a `list=allpages` response. -/
structure PageItem where
  title : String
  pageid : Nat
deriving DecidableEq, Repr

/-- One JSON response of the paginated `list=allpages` query: the `allpages`
items plus the optional continuation token (`response['continue']['apcontinue']`,
present iff `'continue' in response`). -/
structure ListResponse where
  allpages : List PageItem
  apcontinue : Option String
deriving DecidableEq, Repr

/-- The body of the `for item in new_items` loop of `Wiki.read_titles`: titles
starting with `'TEMP'` are filtered out, the rest are written into the fresh
dict. -/
def processItems (fresh : List (String × Nat)) (items : List PageItem) :
    List (String × Nat) :=
  items.foldl
    (fun m it =>
      if pyStartswith it.title "TEMP" then m else dinsert m it.title it.pageid)
    fresh

/-- The `while not got_all` pagination loop of `Wiki.read_titles`, driven by the
successive responses of the remote.  Returns the accumulated dict together with
the number of HTTP requests dispatched; `none` if a request raised (or the
response trace is exhausted while a continuation token was still pending). -/
def read_titles_go (fresh : List (String × Nat)) :
    List (Option ListResponse) → Option (List (String × Nat)) × Nat
  | [] => (none, 0)
  | none :: _ => (none, 1)
  | some r :: rest =>
    match r.apcontinue with
    | none => (some (processItems fresh r.allpages), 1)
    | some _ =>
      let res := read_titles_go (processItems fresh r.allpages) rest
      (res.1, res.2 + 1)

/-- `Wiki.read_titles(namespace)`: drain the paginated listing of one namespace
into a fresh dict, starting from `fresh_titles = {}`. -/
def read_titles (env : Nat → List (Option ListResponse)) (ns : Nat) :
    Option (List (String × Nat)) × Nat :=
  read_titles_go [] (env ns)

/-- The items actually consumed by the pagination loop from a response trace:
every batch up to and including the first response without a continuation
token (nothing if a request raises first). -/
def consumedItems : List (Option ListResponse) → List PageItem
  | [] => []
  | none :: _ => []
  | some r :: rest =>
    match r.apcontinue with
    | none => r.allpages
    | some _ => r.allpages ++ consumedItems rest

/-- The mutable state of the `Wiki` cog relevant to the title cache:
`self.all_titles` and `self.all_titles_stamp`. -/
structure WikiState where
  all_titles : List (String × Nat)
  all_titles_stamp : Nat
deriving DecidableEq, Repr

/-- The state set up by `Wiki.__init__`. -/
def initialState : WikiState :=
  { all_titles := [], all_titles_stamp := 0 }

/-- The hardcoded namespace list of `refresh_titles_cache` (Main, Category). -/
def namespaces : List Nat := [0, 14]

/-- The hardcoded cache time limit (seconds) of `refresh_titles_cache`. -/
def cacheTTL : Nat := 900

/-- Result of one invocation of `refresh_titles_cache`: the state after the
call, the number of HTTP requests dispatched, and whether the call returned
normally (`ok = false` models an exception propagating out of a fetch, which
skips the two assignments at the end of the function). -/
structure RefreshResult where
  state : WikiState
  fetches : Nat
  ok : Bool
deriving DecidableEq, Repr

/-- The `for namespace in namespaces` loop of `refresh_titles_cache`:
`new_titles.update(await self.read_titles(namespace))`.  Returns the final
`new_titles` (or `none` if a fetch raised) plus the requests dispatched. -/
def refresh_go (env : Nat → List (Option ListResponse))
    (new_titles : List (String × Nat)) :
    List Nat → Option (List (String × Nat)) × Nat
  | [] => (some new_titles, 0)
  | ns :: rest =>
    match read_titles env ns with
    | (none, n) => (none, n)
    | (some m, n) =>
      let res := refresh_go env (dupdate new_titles m) rest
      (res.1, n + res.2)

/-- `Wiki.refresh_titles_cache`, with `now` the value of `time.monotonic()`. -/
def refresh_titles_cache (st : WikiState) (now : Nat)
    (env : Nat → List (Option ListResponse)) : RefreshResult :=
  if st.all_titles ≠ [] ∧ now - st.all_titles_stamp < cacheTTL then
    { state := st, fetches := 0, ok := true }
  else
    match refresh_go env [] namespaces with
    | (none, n) => { state := st, fetches := n, ok := false }
    | (some m, n) =>
      { state := { all_titles := m, all_titles_stamp := now }, fetches := n,
        ok := true }

example :
    refresh_titles_cache initialState 5
      (fun _ => [some { allpages := [{ title := "Axe", pageid := 3 }],
                        apcontinue := none }]) =
    { state := { all_titles := [("Axe", 3)], all_titles_stamp := 5 },
      fetches := 2, ok := true } := by decide

/-! ### Association-list (Python dict) lemmas -/

/-- Left-biased choice on optional values (`match a with some p => some p
| none => b`), used to state "later write wins" facts. -/
def orO (a b : Option Nat) : Option Nat :=
  match a with
  | some p => some p
  | none => b

@[simp] theorem orO_some (p : Nat) (b : Option Nat) : orO (some p) b = some p := rfl

@[simp] theorem orO_none (b : Option Nat) : orO none b = b := rfl

@[simp] theorem orO_none_right (a : Option Nat) : orO a none = a := by
  cases a <;> rfl

theorem orO_assoc (a b c : Option Nat) : orO (orO a b) c = orO a (orO b c) := by
  cases a <;> rfl

@[simp] theorem dkeys_nil : dkeys [] = [] := rfl

@[simp] theorem dkeys_cons (k : String) (v : Nat) (m : List (String × Nat)) :
    dkeys ((k, v) :: m) = k :: dkeys m := rfl

theorem dlookup_dinsert (m : List (String × Nat)) (k : String) (v : Nat)
    (a : String) :
    dlookup (dinsert m k v) a = if k = a then some v else dlookup m a := by
  induction m with
  | nil => simp [dinsert, dlookup]
  | cons p m ih =>
    obtain ⟨k0, v0⟩ := p
    by_cases h0 : k0 = k
    · subst h0
      by_cases h : k0 = a <;> simp [dinsert, dlookup, h]
    · by_cases h : k0 = a
      · subst h
        have hk : ¬ k = k0 := fun hh => h0 hh.symm
        simp [dinsert, dlookup, h0, hk]
      · simp [dinsert, dlookup, h0, h, ih]

theorem mem_dkeys_dinsert (m : List (String × Nat)) (k : String) (v : Nat)
    (a : String) :
    a ∈ dkeys (dinsert m k v) ↔ a = k ∨ a ∈ dkeys m := by
  induction m with
  | nil =>
    simp only [dinsert, dkeys_nil, dkeys_cons, List.mem_cons,
      List.not_mem_nil, or_false]
  | cons p m ih =>
    obtain ⟨k0, v0⟩ := p
    by_cases h0 : k0 = k
    · subst h0
      simp only [dinsert, if_pos rfl, dkeys_cons, List.mem_cons]
      by_cases h : a = k0 <;> simp [h]
    · simp only [dinsert, if_neg h0, dkeys_cons, List.mem_cons, ih]
      tauto

theorem nodup_dkeys_dinsert (m : List (String × Nat)) (k : String) (v : Nat)
    (h : (dkeys m).Nodup) : (dkeys (dinsert m k v)).Nodup := by
  induction m with
  | nil => simp [dinsert]
  | cons p m ih =>
    obtain ⟨k0, v0⟩ := p
    rw [dkeys_cons, List.nodup_cons] at h
    by_cases h0 : k0 = k
    · subst h0
      have hd : dinsert ((k0, v0) :: m) k0 v = (k0, v) :: m := by
        simp [dinsert]
      rw [hd, dkeys_cons, List.nodup_cons]
      exact h
    · rw [show dinsert ((k0, v0) :: m) k v = (k0, v0) :: dinsert m k v from
        by simp [dinsert, h0]]
      rw [dkeys_cons, List.nodup_cons]
      refine ⟨fun hmem => ?_, ih h.2⟩
      rcases (mem_dkeys_dinsert m k v k0).mp hmem with h1 | h1
      · exact h0 h1
      · exact h.1 h1

theorem dlookup_eq_none_iff (m : List (String × Nat)) (k : String) :
    dlookup m k = none ↔ k ∉ dkeys m := by
  induction m with
  | nil => simp [dlookup]
  | cons p m ih =>
    obtain ⟨k0, v0⟩ := p
    rw [dkeys_cons]
    by_cases h0 : k0 = k
    · subst h0
      simp [dlookup]
    · have hk : ¬ k = k0 := fun hh => h0 hh.symm
      simp only [dlookup, if_neg h0, List.mem_cons, ih]
      tauto

/-- The value the last entry of an association list assigns to a key (the
value a Python dict built from the entries would hold for the key). -/
def lastVal : List (String × Nat) → String → Option Nat
  | [], _ => none
  | (k, v) :: rest, a => orO (lastVal rest a) (if k = a then some v else none)

theorem lastVal_eq_none_iff (m : List (String × Nat)) (a : String) :
    lastVal m a = none ↔ a ∉ dkeys m := by
  induction m with
  | nil => simp [lastVal]
  | cons p m ih =>
    obtain ⟨k, v⟩ := p
    rw [dkeys_cons]
    simp only [lastVal]
    cases hrest : lastVal m a with
    | some q =>
      have : a ∈ dkeys m := by
        by_contra hmem
        rw [ih.mpr hmem] at hrest
        cases hrest
      simp [List.mem_cons, this]
    | none =>
      have hm : a ∉ dkeys m := ih.mp hrest
      by_cases hk : k = a
      · subst hk
        simp
      · have hk2 : ¬ a = k := fun hh => hk hh.symm
        simp [hk, hk2, hm]

theorem dlookup_dupdate (m other : List (String × Nat)) (a : String) :
    dlookup (dupdate m other) a = orO (lastVal other a) (dlookup m a) := by
  induction other generalizing m with
  | nil => simp [dupdate, lastVal]
  | cons p rest ih =>
    obtain ⟨k, v⟩ := p
    have hstep : dupdate m ((k, v) :: rest) = dupdate (dinsert m k v) rest := rfl
    rw [hstep, ih, dlookup_dinsert]
    simp only [lastVal]
    cases lastVal rest a with
    | some q => simp
    | none =>
      by_cases hk : k = a <;> simp [hk]

theorem nodup_dkeys_dupdate (m other : List (String × Nat))
    (h : (dkeys m).Nodup) : (dkeys (dupdate m other)).Nodup := by
  induction other generalizing m with
  | nil => exact h
  | cons p rest ih =>
    obtain ⟨k, v⟩ := p
    exact ih (dinsert m k v) (nodup_dkeys_dinsert m k v h)

/-- Under the no-duplicate-keys invariant, the last write and the first entry
agree. -/
theorem lastVal_eq_dlookup (m : List (String × Nat)) (a : String)
    (h : (dkeys m).Nodup) : lastVal m a = dlookup m a := by
  induction m with
  | nil => rfl
  | cons p m ih =>
    obtain ⟨k, v⟩ := p
    rw [dkeys_cons, List.nodup_cons] at h
    simp only [lastVal, dlookup]
    by_cases hk : k = a
    · subst hk
      have : lastVal m k = none := (lastVal_eq_none_iff m k).mpr h.1
      simp [this]
    · rw [if_neg hk, if_neg hk, orO_none_right, ih h.2]

/-! ### What the refresh loop publishes -/

/-- The page id the listing assigns to a title, last occurrence winning
(`none` for excluded or absent titles). -/
def lastOccGo : List PageItem → String → Option Nat
  | [], _ => none
  | it :: items, t =>
    orO (lastOccGo items t) (if it.title = t then some it.pageid else none)

/-- As `lastOccGo`, with the `'TEMP'` exclusion rule applied. -/
def lastOcc (items : List PageItem) (t : String) : Option Nat :=
  if pyStartswith t "TEMP" then none else lastOccGo items t

@[simp] theorem lastOccGo_nil (t : String) : lastOccGo [] t = none := rfl

@[simp] theorem lastOcc_nil (t : String) : lastOcc [] t = none := by
  simp [lastOcc, lastOccGo]

@[simp] theorem processItems_nil (fresh : List (String × Nat)) :
    processItems fresh [] = fresh := rfl

theorem processItems_cons (fresh : List (String × Nat)) (it : PageItem)
    (items : List PageItem) :
    processItems fresh (it :: items) =
      processItems
        (if pyStartswith it.title "TEMP" then fresh
         else dinsert fresh it.title it.pageid) items := rfl

theorem lastOccGo_append (l₁ l₂ : List PageItem) (t : String) :
    lastOccGo (l₁ ++ l₂) t = orO (lastOccGo l₂ t) (lastOccGo l₁ t) := by
  induction l₁ with
  | nil => simp [lastOccGo]
  | cons it l₁ ih =>
    have hstep : lastOccGo ((it :: l₁) ++ l₂) t =
        orO (lastOccGo (l₁ ++ l₂) t)
          (if it.title = t then some it.pageid else none) := rfl
    rw [hstep, ih, orO_assoc]
    rfl

theorem lastOcc_append (l₁ l₂ : List PageItem) (t : String) :
    lastOcc (l₁ ++ l₂) t = orO (lastOcc l₂ t) (lastOcc l₁ t) := by
  by_cases h : pyStartswith t "TEMP" <;>
    simp [lastOcc, h, lastOccGo_append]

theorem dlookup_processItems (items : List PageItem) :
    ∀ fresh t, dlookup (processItems fresh items) t =
      orO (lastOcc items t) (dlookup fresh t) := by
  induction items with
  | nil => intro fresh t; simp
  | cons it items ih =>
    intro fresh t
    rw [processItems_cons, ih]
    by_cases htemp : pyStartswith t "TEMP"
    · -- an excluded title is never inserted, and never matched by `lastOcc`
      have h1 : lastOcc (it :: items) t = none := by simp [lastOcc, htemp]
      have h2 : lastOcc items t = none := by simp [lastOcc, htemp]
      rw [h1, h2, orO_none, orO_none]
      by_cases hit : pyStartswith it.title "TEMP"
      · rw [if_pos hit]
      · rw [if_neg hit, dlookup_dinsert]
        have hne : ¬ it.title = t := fun hh => hit (hh ▸ htemp)
        rw [if_neg hne]
    · have h1 : lastOcc (it :: items) t =
          orO (lastOccGo items t) (if it.title = t then some it.pageid else none) := by
        simp [lastOcc, htemp, lastOccGo]
      have h2 : lastOcc items t = lastOccGo items t := by simp [lastOcc, htemp]
      rw [h1, h2, orO_assoc]
      congr 1
      by_cases hit : pyStartswith it.title "TEMP"
      · have hne : ¬ it.title = t := fun hh => htemp (hh ▸ hit)
        rw [if_pos hit, if_neg hne, orO_none]
      · rw [if_neg hit, dlookup_dinsert]
        by_cases hm : it.title = t <;> simp [hm]

theorem nodup_processItems (items : List PageItem) :
    ∀ fresh, (dkeys fresh).Nodup → (dkeys (processItems fresh items)).Nodup := by
  induction items with
  | nil => intro fresh h; simpa using h
  | cons it items ih =>
    intro fresh h
    rw [processItems_cons]
    by_cases hit : pyStartswith it.title "TEMP"
    · rw [if_pos hit]; exact ih fresh h
    · rw [if_neg hit]
      exact ih _ (nodup_dkeys_dinsert fresh it.title it.pageid h)

theorem dlookup_read_titles_go (rs : List (Option ListResponse)) :
    ∀ fresh m, (read_titles_go fresh rs).1 = some m →
      ∀ t, dlookup m t = orO (lastOcc (consumedItems rs) t) (dlookup fresh t) := by
  induction rs with
  | nil => intro fresh m h; cases h
  | cons r rest ih =>
    intro fresh m h t
    cases r with
    | none => cases h
    | some r =>
      cases hc : r.apcontinue with
      | none =>
        simp only [read_titles_go, hc] at h
        cases h
        simp only [consumedItems, hc]
        exact dlookup_processItems r.allpages fresh t
      | some c =>
        simp only [read_titles_go, hc] at h
        rw [ih _ _ h, dlookup_processItems, consumedItems, hc, lastOcc_append,
          orO_assoc]

theorem nodup_read_titles_go (rs : List (Option ListResponse)) :
    ∀ fresh m, (dkeys fresh).Nodup → (read_titles_go fresh rs).1 = some m →
      (dkeys m).Nodup := by
  induction rs with
  | nil => intro fresh m _ h; cases h
  | cons r rest ih =>
    intro fresh m hnd h
    cases r with
    | none => cases h
    | some r =>
      cases hc : r.apcontinue with
      | none =>
        simp only [read_titles_go, hc] at h
        cases h
        exact nodup_processItems r.allpages fresh hnd
      | some c =>
        simp only [read_titles_go, hc] at h
        exact ih _ _ (nodup_processItems r.allpages fresh hnd) h

/-- All items consumed across a list of namespaces, in fetch order. -/
def envItems (env : Nat → List (Option ListResponse)) : List Nat → List PageItem
  | [] => []
  | ns :: rest => consumedItems (env ns) ++ envItems env rest

theorem mem_envItems (env : Nat → List (Option ListResponse))
    (nss : List Nat) (it : PageItem) :
    it ∈ envItems env nss ↔ ∃ ns ∈ nss, it ∈ consumedItems (env ns) := by
  induction nss with
  | nil => simp [envItems]
  | cons ns rest ih => simp [envItems, ih]

theorem dlookup_refresh_go (env : Nat → List (Option ListResponse))
    (nss : List Nat) :
    ∀ acc m, (refresh_go env acc nss).1 = some m →
      ∀ t, dlookup m t = orO (lastOcc (envItems env nss) t) (dlookup acc t) := by
  induction nss with
  | nil =>
    intro acc m h t
    cases h
    simp [envItems]
  | cons ns rest ih =>
    intro acc m h t
    cases hrt : read_titles env ns with
    | mk o n =>
      cases o with
      | none =>
        simp only [refresh_go, hrt] at h
        cases h
      | some mm =>
        simp only [refresh_go, hrt] at h
        have hnodmm : (dkeys mm).Nodup := by
          refine nodup_read_titles_go (env ns) [] mm (by simp) ?_
          rw [show read_titles_go [] (env ns) = read_titles env ns from rfl, hrt]
        have hmm : ∀ t, dlookup mm t = lastOcc (consumedItems (env ns)) t := by
          intro t
          have := dlookup_read_titles_go (env ns) [] mm
            (by rw [show read_titles_go [] (env ns) = read_titles env ns from rfl,
                hrt]) t
          simpa [dlookup] using this
        rw [ih _ _ h, dlookup_dupdate, lastVal_eq_dlookup _ _ hnodmm, hmm,
          envItems, lastOcc_append, orO_assoc]

theorem nodup_refresh_go (env : Nat → List (Option ListResponse))
    (nss : List Nat) :
    ∀ acc m, (dkeys acc).Nodup → (refresh_go env acc nss).1 = some m →
      (dkeys m).Nodup := by
  induction nss with
  | nil =>
    intro acc m h hh
    cases hh
    exact h
  | cons ns rest ih =>
    intro acc m hnd h
    cases hrt : read_titles env ns with
    | mk o n =>
      cases o with
      | none =>
        simp only [refresh_go, hrt] at h
        cases h
      | some mm =>
        simp only [refresh_go, hrt] at h
        exact ih _ _ (nodup_dkeys_dupdate acc mm hnd) h

theorem lastOccGo_some_mem (items : List PageItem) (t : String) (p : Nat)
    (h : lastOccGo items t = some p) :
    ∃ it ∈ items, it.title = t ∧ it.pageid = p := by
  induction items with
  | nil => cases h
  | cons it items ih =>
    simp only [lastOccGo] at h
    cases hrec : lastOccGo items t with
    | some q =>
      rw [hrec] at h
      simp only [orO_some, Option.some.injEq] at h
      obtain ⟨it2, hmem, ht, hp⟩ := ih (h ▸ hrec)
      exact ⟨it2, List.mem_cons_of_mem _ hmem, ht, hp⟩
    | none =>
      rw [hrec, orO_none] at h
      by_cases hm : it.title = t
      · rw [if_pos hm] at h
        cases h
        exact ⟨it, List.mem_cons_self _ _, hm, rfl⟩
      · rw [if_neg hm] at h
        cases h

theorem lastOccGo_eq_none_iff (items : List PageItem) (t : String) :
    lastOccGo items t = none ↔ ∀ it ∈ items, it.title ≠ t := by
  induction items with
  | nil => simp
  | cons it items ih =>
    simp only [lastOccGo, List.mem_cons]
    cases hrec : lastOccGo items t with
    | some q =>
      simp only [orO_some]
      constructor
      · intro h; cases h
      · intro h
        have : lastOccGo items t = none := ih.mpr (fun it2 hm => h it2 (Or.inr hm))
        rw [this] at hrec
        cases hrec
    | none =>
      have hall := ih.mp hrec
      by_cases hm : it.title = t
      · simp [hm]
      · simp only [orO_none, if_neg hm]
        constructor
        · intro _ it2 h2
          rcases h2 with h2 | h2
          · exact h2 ▸ hm
          · exact hall it2 h2
        · intro _; trivial

/-! ### C1: a successful refresh publishes exactly the filtered union -/

theorem refresh_titles_cache_stale_some (st : WikiState) (now : Nat)
    (env : Nat → List (Option ListResponse)) (m : List (String × Nat)) (n : Nat)
    (hstale : ¬ (st.all_titles ≠ [] ∧ now - st.all_titles_stamp < cacheTTL))
    (hrg : refresh_go env [] namespaces = (some m, n)) :
    refresh_titles_cache st now env =
      { state := { all_titles := m, all_titles_stamp := now }, fetches := n,
        ok := true } := by
  unfold refresh_titles_cache
  rw [if_neg hstale, hrg]

theorem refresh_titles_cache_stale_none (st : WikiState) (now : Nat)
    (env : Nat → List (Option ListResponse)) (n : Nat)
    (hstale : ¬ (st.all_titles ≠ [] ∧ now - st.all_titles_stamp < cacheTTL))
    (hrg : refresh_go env [] namespaces = (none, n)) :
    refresh_titles_cache st now env =
      { state := st, fetches := n, ok := false } := by
  unfold refresh_titles_cache
  rw [if_neg hstale, hrg]

/-- C1: after a successful refresh that actually fetched (the cache was not
fresh), the published index is exactly the union over the configured
namespaces of the titles of the paginated listing that do not start with the
excluded `'TEMP'` prefix; keys are unique, every stored page id comes from a
response item bearing that title, and excluded titles are absent. -/
theorem refresh_publishes_exact_union (st : WikiState) (now : Nat)
    (env : Nat → List (Option ListResponse))
    (hstale : ¬ (st.all_titles ≠ [] ∧ now - st.all_titles_stamp < cacheTTL))
    (hok : (refresh_titles_cache st now env).ok = true) :
    (dkeys (refresh_titles_cache st now env).state.all_titles).Nodup ∧
    (∀ t : String,
      (∃ p, dlookup (refresh_titles_cache st now env).state.all_titles t = some p) ↔
        (pyStartswith t "TEMP" = false ∧
          ∃ ns ∈ namespaces, ∃ it ∈ consumedItems (env ns), it.title = t)) ∧
    (∀ t p, dlookup (refresh_titles_cache st now env).state.all_titles t = some p →
        ∃ ns ∈ namespaces, ∃ it ∈ consumedItems (env ns),
          it.title = t ∧ it.pageid = p) ∧
    (∀ t, pyStartswith t "TEMP" = true →
        dlookup (refresh_titles_cache st now env).state.all_titles t = none) := by
  cases hrg : refresh_go env [] namespaces with
  | mk o n =>
    cases o with
    | none =>
      rw [refresh_titles_cache_stale_none st now env n hstale hrg] at hok
      cases hok
    | some m =>
      have hres := refresh_titles_cache_stale_some st now env m n hstale hrg
      have hm1 : (refresh_go env [] namespaces).1 = some m := by rw [hrg]
      have hl : ∀ t, dlookup m t = lastOcc (envItems env namespaces) t := by
        intro t
        have h := dlookup_refresh_go env namespaces [] m hm1 t
        simpa [dlookup] using h
      have hnd : (dkeys m).Nodup :=
        nodup_refresh_go env namespaces [] m (by simp) hm1
      simp only [hres]
      refine ⟨hnd, ?_, ?_, ?_⟩
      · intro t
        constructor
        · rintro ⟨p, hp⟩
          rw [hl t] at hp
          by_cases htemp : pyStartswith t "TEMP"
          · rw [lastOcc, if_pos htemp] at hp
            cases hp
          · refine ⟨by simpa using htemp, ?_⟩
            rw [lastOcc, if_neg htemp] at hp
            obtain ⟨it, hmem, ht, _⟩ := lastOccGo_some_mem _ t p hp
            obtain ⟨ns, hns, hit⟩ := (mem_envItems env namespaces it).mp hmem
            exact ⟨ns, hns, it, hit, ht⟩
        · rintro ⟨htemp, ns, hns, it, hit, htitle⟩
          rw [hl t]
          have hmem : it ∈ envItems env namespaces :=
            (mem_envItems env namespaces it).mpr ⟨ns, hns, hit⟩
          have htemp2 : ¬ pyStartswith t "TEMP" = true := by simp [htemp]
          rw [lastOcc, if_neg htemp2]
          cases hocc : lastOccGo (envItems env namespaces) t with
          | some p => exact ⟨p, rfl⟩
          | none =>
            exact absurd htitle
              ((lastOccGo_eq_none_iff (envItems env namespaces) t).mp hocc it hmem)
      · intro t p hp
        rw [hl t] at hp
        by_cases htemp : pyStartswith t "TEMP"
        · rw [lastOcc, if_pos htemp] at hp
          cases hp
        · rw [lastOcc, if_neg htemp] at hp
          obtain ⟨it, hmem, ht, hpid⟩ := lastOccGo_some_mem _ t p hp
          obtain ⟨ns, hns, hit⟩ := (mem_envItems env namespaces it).mp hmem
          exact ⟨ns, hns, it, hit, ht, hpid⟩
      · intro t htemp
        rw [hl t, lastOcc, if_pos htemp]

/-- A concrete two-namespace environment used to instantiate the refresh
theorems: namespace 0 answers with a continued listing containing an excluded
title, namespace 14 answers with a single batch. -/
def envC1 : Nat → List (Option ListResponse) := fun ns =>
  if ns = 0 then
    [some { allpages := [{ title := "Axe", pageid := 3 },
                         { title := "TEMPCargo", pageid := 4 }],
            apcontinue := some "Bow" },
     some { allpages := [{ title := "Bow", pageid := 5 }], apcontinue := none }]
  else
    [some { allpages := [{ title := "Category:Arms", pageid := 7 }],
            apcontinue := none }]

theorem refresh_publishes_exact_union_witness :
    (¬ (initialState.all_titles ≠ [] ∧
        1000 - initialState.all_titles_stamp < cacheTTL)) ∧
    ((refresh_titles_cache initialState 1000 envC1).ok = true) ∧
    ((dkeys (refresh_titles_cache initialState 1000 envC1).state.all_titles).Nodup ∧
    (∀ t : String,
      (∃ p, dlookup (refresh_titles_cache initialState 1000 envC1).state.all_titles t = some p) ↔
        (pyStartswith t "TEMP" = false ∧
          ∃ ns ∈ namespaces, ∃ it ∈ consumedItems (envC1 ns), it.title = t)) ∧
    (∀ t p, dlookup (refresh_titles_cache initialState 1000 envC1).state.all_titles t = some p →
        ∃ ns ∈ namespaces, ∃ it ∈ consumedItems (envC1 ns),
          it.title = t ∧ it.pageid = p) ∧
    (∀ t, pyStartswith t "TEMP" = true →
        dlookup (refresh_titles_cache initialState 1000 envC1).state.all_titles t = none)) :=
  ⟨by decide, by decide,
    refresh_publishes_exact_union initialState 1000 envC1 (by decide) (by decide)⟩

/-! ### C3: a failed fetch leaves the published state untouched -/

theorem refresh_go_fail (env : Nat → List (Option ListResponse)) :
    ∀ (nss : List Nat) (acc : List (String × Nat)),
      (∃ ns ∈ nss, (read_titles env ns).1 = none) →
      (refresh_go env acc nss).1 = none := by
  intro nss
  induction nss with
  | nil =>
    intro acc h
    simp at h
  | cons ns rest ih =>
    intro acc h
    cases hrt : read_titles env ns with
    | mk o n =>
      cases o with
      | none => simp [refresh_go, hrt]
      | some mm =>
        simp only [refresh_go, hrt]
        rcases h with ⟨ns2, hmem, hfail⟩
        rcases List.mem_cons.mp hmem with h2 | h2
        · subst h2
          rw [hrt] at hfail
          cases hfail
        · exact ih _ ⟨ns2, h2, hfail⟩

/-- C3: if any namespace fetch raises, `refresh_titles_cache` leaves the
previously published index and timestamp exactly as they were (the two
assignments at the end of the function are never reached). -/
theorem refresh_failure_preserves_state (st : WikiState) (now : Nat)
    (env : Nat → List (Option ListResponse))
    (hfail : ∃ ns ∈ namespaces, (read_titles env ns).1 = none) :
    (refresh_titles_cache st now env).state = st := by
  by_cases hfresh : st.all_titles ≠ [] ∧ now - st.all_titles_stamp < cacheTTL
  · unfold refresh_titles_cache
    rw [if_pos hfresh]
  · have h := refresh_go_fail env namespaces [] hfail
    cases hrg : refresh_go env [] namespaces with
    | mk o n =>
      rw [hrg] at h
      cases o with
      | none => rw [refresh_titles_cache_stale_none st now env n hfresh hrg]
      | some m => cases h

/-- An environment whose namespace-0 fetch raises on the first request. -/
def envFail : Nat → List (Option ListResponse) := fun _ => [none]

theorem refresh_failure_preserves_state_witness :
    (∃ ns ∈ namespaces, (read_titles envFail ns).1 = none) ∧
    (refresh_titles_cache { all_titles := [("Axe", 3)], all_titles_stamp := 0 }
        5000 envFail).state =
      { all_titles := [("Axe", 3)], all_titles_stamp := 0 } :=
  ⟨by decide,
    refresh_failure_preserves_state
      { all_titles := [("Axe", 3)], all_titles_stamp := 0 } 5000 envFail
      (by decide)⟩

/-! ### C4: TTL freshness no-op -/

/-- An environment in which every listed title carries the excluded `'TEMP'`
prefix, so a refresh succeeds but publishes an empty index. -/
def envC4 : Nat → List (Option ListResponse) := fun _ =>
  [some { allpages := [{ title := "TEMPCargo", pageid := 1 }],
          apcontinue := none }]

/-- C4 counterexample: a refresh can succeed and still publish an empty index
(every remote title carries the excluded prefix).  The code re-checks
`self.all_titles != {}`, not "a refresh succeeded", so a second invocation
one second later — well inside the TTL window — dispatches remote fetches
again instead of performing zero. -/
theorem refresh_ttl_second_fetch_cex :
    (refresh_titles_cache initialState 0 envC4).ok = true ∧
    1 - (refresh_titles_cache initialState 0 envC4).state.all_titles_stamp <
      cacheTTL ∧
    (refresh_titles_cache (refresh_titles_cache initialState 0 envC4).state 1
        envC4).fetches ≠ 0 := by
  decide

/-- C4 amended: if a successful refresh published a nonempty index, then any
second invocation within the TTL window dispatches zero remote fetches and
returns with the index and timestamp unchanged. -/
theorem refresh_ttl_fresh_noop (st : WikiState) (now now2 : Nat)
    (env env2 : Nat → List (Option ListResponse))
    (hok : (refresh_titles_cache st now env).ok = true)
    (hne : (refresh_titles_cache st now env).state.all_titles ≠ [])
    (httl : now2 - (refresh_titles_cache st now env).state.all_titles_stamp <
      cacheTTL) :
    refresh_titles_cache (refresh_titles_cache st now env).state now2 env2 =
      { state := (refresh_titles_cache st now env).state, fetches := 0,
        ok := true } := by
  have key : ∀ s : WikiState, s.all_titles ≠ [] →
      now2 - s.all_titles_stamp < cacheTTL →
      refresh_titles_cache s now2 env2 =
        { state := s, fetches := 0, ok := true } := by
    intro s h1 h2
    unfold refresh_titles_cache
    rw [if_pos ⟨h1, h2⟩]
  exact key _ hne httl

/-- A single-batch environment with one ordinary title per namespace. -/
def envPlain : Nat → List (Option ListResponse) := fun _ =>
  [some { allpages := [{ title := "Axe", pageid := 3 }], apcontinue := none }]

theorem refresh_ttl_fresh_noop_witness :
    (refresh_titles_cache initialState 0 envPlain).ok = true ∧
    (refresh_titles_cache initialState 0 envPlain).state.all_titles ≠ [] ∧
    100 - (refresh_titles_cache initialState 0 envPlain).state.all_titles_stamp <
      cacheTTL ∧
    refresh_titles_cache (refresh_titles_cache initialState 0 envPlain).state
        100 envFail =
      { state := (refresh_titles_cache initialState 0 envPlain).state,
        fetches := 0, ok := true } :=
  ⟨by decide, by decide, by decide,
    refresh_ttl_fresh_noop initialState 0 100 envPlain envFail (by decide)
      (by decide) (by decide)⟩

/-! ### C2: the ranking contract of the fuzzy title search -/

/-- Lexicographic comparison of character sequences (Python string order). -/
def lexLe : List Char → List Char → Bool
  | [], _ => true
  | _ :: _, [] => false
  | a :: s, b :: t => if a = b then lexLe s t else decide (a < b)

theorem lexLe_total (s : List Char) :
    ∀ t, lexLe s t = true ∨ lexLe t s = true := by
  induction s with
  | nil => intro t; left; rfl
  | cons a s ih =>
    intro t
    cases t with
    | nil => right; rfl
    | cons b t =>
      by_cases hab : a = b
      · subst hab
        rcases ih t with h | h
        · left; simpa [lexLe] using h
        · right; simpa [lexLe] using h
      · rcases lt_or_gt_of_ne hab with h | h
        · left; simp [lexLe, hab, h]
        · right
          have hba : ¬ b = a := fun hh => hab hh.symm
          simp [lexLe, hba, h]

theorem lexLe_trans (s : List Char) :
    ∀ t u, lexLe s t = true → lexLe t u = true → lexLe s u = true := by
  induction s with
  | nil => intro t u _ _; rfl
  | cons a s ih =>
    intro t u hst htu
    cases t with
    | nil => simp [lexLe] at hst
    | cons b t =>
      cases u with
      | nil => simp [lexLe] at htu
      | cons c u =>
        by_cases hab : a = b
        · subst hab
          by_cases hbc : a = c
          · subst hbc
            simp only [lexLe, if_pos rfl] at hst htu ⊢
            exact ih t u hst htu
          · simp only [lexLe, if_pos rfl] at hst
            simp only [lexLe, if_neg hbc] at htu ⊢
            exact htu
        · simp only [lexLe, if_neg hab, decide_eq_true_eq] at hst
          by_cases hbc : b = c
          · subst hbc
            simp only [lexLe, if_neg hab, decide_eq_true_eq]
            exact hst
          · simp only [lexLe, if_neg hbc, decide_eq_true_eq] at htu
            have hlt : a < c := lt_trans hst htu
            have hac : ¬ a = c := ne_of_lt hlt
            simp only [lexLe, if_neg hac, decide_eq_true_eq]
            exact hlt

/-- The ordering used to state the ranking contract: strictly greater score
first, ties broken by lexicographic order of the candidate title. -/
def rankRelB (a b : String × Nat) : Bool :=
  decide (b.2 < a.2) || ((a.2 == b.2) && lexLe a.1.data b.1.data)

def rankRel (a b : String × Nat) : Prop := rankRelB a b = true

instance rankRel.decRel : DecidableRel rankRel := fun a b =>
  inferInstanceAs (Decidable (rankRelB a b = true))

theorem rankRel_iff (a b : String × Nat) :
    rankRel a b ↔ b.2 < a.2 ∨ (a.2 = b.2 ∧ lexLe a.1.data b.1.data = true) := by
  simp [rankRel, rankRelB, Bool.or_eq_true, Bool.and_eq_true]

theorem rankRel_total (a b : String × Nat) : rankRel a b ∨ rankRel b a := by
  rcases Nat.lt_trichotomy a.2 b.2 with h | h | h
  · right; rw [rankRel_iff]; exact Or.inl h
  · rcases lexLe_total a.1.data b.1.data with hl | hl
    · left; rw [rankRel_iff]; exact Or.inr ⟨h, hl⟩
    · right; rw [rankRel_iff]; exact Or.inr ⟨h.symm, hl⟩
  · left; rw [rankRel_iff]; exact Or.inl h

theorem rankRel_trans (a b c : String × Nat) (hab : rankRel a b)
    (hbc : rankRel b c) : rankRel a c := by
  rw [rankRel_iff] at hab hbc ⊢
  rcases hab with hab | ⟨hab, hab2⟩
  · rcases hbc with hbc | ⟨hbc, _⟩
    · exact Or.inl (lt_trans hbc hab)
    · exact Or.inl (hbc ▸ hab)
  · rcases hbc with hbc | ⟨hbc, hbc2⟩
    · exact Or.inl (hab ▸ hbc)
    · exact Or.inr ⟨hab.trans hbc, lexLe_trans _ _ _ hab2 hbc2⟩

/-- Modelled from the spec (§4.3): the ranking operation used by the title
search is `fuzzywuzzy.process.extractBests(query, candidates,
score_cutoff, limit)`, third-party library code that is not part of this
repository.  Following the spec's words, `rank` scores every candidate with
the pluggable 0–100 similarity metric, retains only candidates with
score ≥ cutoff, sorts by descending score with ties broken by the candidate
title's lexicographic order, and truncates to `limit` results. -/
def rank (score : String → String → Nat) (query : String)
    (candidates : List String) (score_cutoff limit : Nat) :
    List (String × Nat) :=
  let scored := candidates.map (fun c => (c, score query c))
  let kept := scored.filter (fun p => decide (score_cutoff ≤ p.2))
  (List.insertionSort rankRel kept).take limit

/-- C2: `rank` returns at most `limit` entries, every returned score is at
least the cutoff, and the result is sorted by descending score with ties
broken by lexicographic title order. -/
theorem rank_contract (score : String → String → Nat) (query : String)
    (candidates : List String) (cutoff limit : Nat) :
    (rank score query candidates cutoff limit).length ≤ limit ∧
    (∀ p ∈ rank score query candidates cutoff limit, cutoff ≤ p.2) ∧
    List.Sorted rankRel (rank score query candidates cutoff limit) := by
  refine ⟨?_, ?_, ?_⟩
  · rw [rank, List.length_take]
    exact min_le_left _ _
  · intro p hp
    rw [rank] at hp
    have h1 := List.take_subset _ _ hp
    have h2 := (List.perm_insertionSort rankRel _).subset h1
    have h3 := List.mem_filter.mp h2
    simpa using h3.2
  · rw [rank]
    have hs : List.Sorted rankRel (List.insertionSort rankRel
        ((candidates.map (fun c => (c, score query c))).filter
          (fun p => decide (cutoff ≤ p.2)))) :=
      @List.sorted_insertionSort _ rankRel rankRel.decRel ⟨rankRel_total⟩
        ⟨rankRel_trans⟩ _
    exact List.Pairwise.sublist (List.take_sublist _ _) hs

example :
    rank (fun _ c => if c = "Battle Axe" then 80 else 90) "carbide"
      ["Battle Axe", "Two-Handed Carbide Battle Axe"] 75 10 =
    [("Two-Handed Carbide Battle Axe", 90), ("Battle Axe", 80)] := by decide

/-! ### URL resolution (`pageids_to_urls`) and the title-search flow -/

/-- The spec's error taxonomy member raised on a response that lacks an
expected field (§7).  In the Python source, subscripting the missing key of
the decoded JSON raises `KeyError`; per the taxonomy that shape-violation
failure is this typed error. -/
inductive RemoteError
  | remoteProtocolError
deriving DecidableEq, Repr

/-- Python exception classes relevant to `wikisearch`'s `try/except ValueError`
clause. -/
inductive PyExc
  | keyError
  | typeError
  | valueError
deriving DecidableEq, Repr

/-- The list comprehension of `pageids_to_urls`: look each requested id up in
`response['query']['pages']`; a missing id raises (modelled as the protocol
error). -/
def resolve_go (pages : Nat → Option String) :
    List Nat → Except RemoteError (List String)
  | [] => Except.ok []
  | pid :: rest =>
    match pages pid with
    | none => Except.error RemoteError.remoteProtocolError
    | some url =>
      match resolve_go pages rest with
      | Except.error e => Except.error e
      | Except.ok urls => Except.ok (url :: urls)

/-- The observable behaviour of one call of `Wiki.pageids_to_urls`: the
`pageids` parameter strings of the HTTP requests it dispatches (exactly one,
all ids joined with `'|'`), and its result. -/
structure UrlResolution where
  requests : List String
  result : Except RemoteError (List String)
deriving Repr

/-- `Wiki.pageids_to_urls`, with `pages` the pageid → `fullurl` content of the
remote's single JSON reply. -/
def pageids_to_urls (pages : Nat → Option String) (pageids : List Nat) :
    UrlResolution :=
  { requests := [String.intercalate "|" (pageids.map (fun p => toString p))],
    result := resolve_go pages pageids }

/-- The no-match sentinel message sent by both search commands. -/
def noMatchesMsg : String := "Sorry, no matches were found for that query."

/-- The list comprehension `[self.all_titles[item[0]] for item in results]`;
`none` models the `KeyError` raised if a ranked title were absent from the
snapshot. -/
def titles_to_pageids (m : List (String × Nat)) :
    List (String × Nat) → Option (List Nat)
  | [] => some []
  | r :: rest =>
    match dlookup m r.1 with
    | none => none
    | some pid => (titles_to_pageids m rest).map (fun ps => pid :: ps)

/-- Observable outcome of the `wiki` command after the cache refresh:
a plain message sent, an embed of (title, url) links sent, or a propagated
exception. -/
inductive TitleSearchOutcome
  | sent (msg : String)
  | embedLinks (pairs : List (String × String))
  | raisedRemote (e : RemoteError)
  | raisedPy (e : PyExc)
deriving DecidableEq, Repr

/-- The body of `Wiki.wiki` after `refresh_titles_cache` returns (the refresh
itself is modelled separately by `refresh_titles_cache`): rank the snapshot's
titles with cutoff 75 and limit 10, answer the no-match sentinel on an empty
ranking, otherwise map titles to ids through the snapshot, resolve URLs and
embed the zipped (title, url) links.  The second component counts the HTTP
requests of the URL-resolution step. -/
def wiki_command (score : String → String → Nat) (st : WikiState)
    (query : String) (pages : Nat → Option String) :
    TitleSearchOutcome × Nat :=
  if (rank score query (dkeys st.all_titles) 75 10).length = 0 then
    (TitleSearchOutcome.sent noMatchesMsg, 0)
  else
    match titles_to_pageids st.all_titles
        (rank score query (dkeys st.all_titles) 75 10) with
    | none => (TitleSearchOutcome.raisedPy PyExc.keyError, 0)
    | some pageids =>
      match (pageids_to_urls pages pageids).result with
      | Except.error e =>
        (TitleSearchOutcome.raisedRemote e,
          (pageids_to_urls pages pageids).requests.length)
      | Except.ok urls =>
        (TitleSearchOutcome.embedLinks
            (((rank score query (dkeys st.all_titles) 75 10).map Prod.fst).zip
              urls),
          (pageids_to_urls pages pageids).requests.length)

theorem pageids_to_urls_one_request (pages : Nat → Option String)
    (pageids : List Nat) : (pageids_to_urls pages pageids).requests.length = 1 :=
  rfl

theorem flow_pointwise (m : List (String × Nat)) (pages : Nat → Option String) :
    ∀ (results : List (String × Nat)) (pids : List Nat) (urls : List String),
      titles_to_pageids m results = some pids →
      resolve_go pages pids = Except.ok urls →
      pids.length = results.length ∧ urls.length = results.length ∧
      ∀ i, i < results.length →
        ∃ r pid url, results[i]? = some r ∧ dlookup m r.1 = some pid ∧
          pids[i]? = some pid ∧ urls[i]? = some url ∧ pages pid = some url := by
  intro results
  induction results with
  | nil =>
    intro pids urls ht hr
    simp only [titles_to_pageids, Option.some.injEq] at ht
    subst ht
    simp only [resolve_go, Except.ok.injEq] at hr
    subst hr
    exact ⟨rfl, rfl, fun i hi => absurd hi (by simp)⟩
  | cons r rest ih =>
    intro pids urls ht hr
    cases hd : dlookup m r.1 with
    | none => rw [titles_to_pageids, hd] at ht; cases ht
    | some pid =>
      rw [titles_to_pageids, hd] at ht
      obtain ⟨prest, hprest, rfl⟩ := Option.map_eq_some'.mp ht
      cases hu : pages pid with
      | none => rw [resolve_go, hu] at hr; cases hr
      | some url =>
        rw [resolve_go, hu] at hr
        cases hrest : resolve_go pages prest with
        | error e => rw [hrest] at hr; cases hr
        | ok urest =>
          rw [hrest] at hr
          cases hr
          obtain ⟨hl1, hl2, hpt⟩ := ih prest urest hprest hrest
          refine ⟨by simp [hl1], by simp [hl2], ?_⟩
          intro i hi
          cases i with
          | zero => exact ⟨r, pid, url, by simp, hd, by simp, by simp, hu⟩
          | succ j =>
            have hj : j < rest.length := by simpa using hi
            obtain ⟨r2, pid2, url2, h1, h2, h3, h4, h5⟩ := hpt j hj
            exact ⟨r2, pid2, url2, by simpa using h1, h2, by simpa using h3,
              by simpa using h4, h5⟩

theorem zip_getElem?_of (a : List String) (b : List String) :
    ∀ (i : Nat) (x y : String), a[i]? = some x → b[i]? = some y →
      (a.zip b)[i]? = some (x, y) := by
  induction a generalizing b with
  | nil => intro i x y hx _; simp at hx
  | cons p a ih =>
    intro i x y hx hy
    cases b with
    | nil => simp at hy
    | cons q b =>
      cases i with
      | zero =>
        simp only [List.getElem?_cons_zero, Option.some.injEq] at hx hy
        simp [List.zip_cons_cons, hx, hy]
      | succ j =>
        simp only [List.getElem?_cons_succ] at hx hy
        simpa [List.zip_cons_cons] using ih b j x y hx hy

/-- C6: if any requested page id is absent from the response's `pages`
mapping, URL resolution fails with the typed protocol error — it never
returns a list (shorter or with an empty URL). -/
theorem resolve_missing_id_fails (pages : Nat → Option String)
    (pageids : List Nat) (pid : Nat) (hmem : pid ∈ pageids)
    (hmiss : pages pid = none) :
    (pageids_to_urls pages pageids).result =
      Except.error RemoteError.remoteProtocolError := by
  show resolve_go pages pageids = _
  induction pageids with
  | nil => simp at hmem
  | cons q rest ih =>
    rcases List.mem_cons.mp hmem with h | h
    · subst h
      rw [resolve_go, hmiss]
    · cases hq : pages q with
      | none => rw [resolve_go, hq]
      | some url =>
        rw [resolve_go, hq, ih h]

/-- The pageid → URL content of the remote reply used by the witnesses: only
ids 3 and 5 exist. -/
def pagesW : Nat → Option String := fun p =>
  if p = 3 then some "https://wiki/Axe"
  else if p = 5 then some "https://wiki/Bow" else none

theorem resolve_missing_id_fails_witness :
    (7 ∈ [3, 7]) ∧ pagesW 7 = none ∧
    (pageids_to_urls pagesW [3, 7]).result =
      Except.error RemoteError.remoteProtocolError :=
  ⟨by decide, by decide, resolve_missing_id_fails pagesW [3, 7] 7 (by decide) (by decide)⟩

/-- C5: when the title-search flow replies with links, the URL resolution
dispatched exactly one batched request (and always does), and the reply is
the ordered list of (title, url) pairs following the ranking's order, each
url resolved from that title's page id in the snapshot. -/
theorem title_search_ordered_output (score : String → String → Nat)
    (st : WikiState) (query : String) (pages : Nat → Option String)
    (pairs : List (String × String))
    (h : (wiki_command score st query pages).1 =
      TitleSearchOutcome.embedLinks pairs) :
    (wiki_command score st query pages).2 = 1 ∧
    (∀ pids : List Nat, (pageids_to_urls pages pids).requests.length = 1) ∧
    pairs.map Prod.fst =
      (rank score query (dkeys st.all_titles) 75 10).map Prod.fst ∧
    pairs.length = (rank score query (dkeys st.all_titles) 75 10).length ∧
    (∀ i, i < pairs.length →
      ∃ t url pid, pairs[i]? = some (t, url) ∧
        dlookup st.all_titles t = some pid ∧ pages pid = some url) := by
  by_cases hz : (rank score query (dkeys st.all_titles) 75 10).length = 0
  · unfold wiki_command at h
    rw [if_pos hz] at h
    simp at h
  · unfold wiki_command at h ⊢
    rw [if_neg hz] at h ⊢
    cases hp : titles_to_pageids st.all_titles
        (rank score query (dkeys st.all_titles) 75 10) with
    | none =>
      rw [hp] at h
      simp at h
    | some pids =>
      simp only [hp] at h
      cases hr : (pageids_to_urls pages pids).result with
      | error e =>
        simp only [hr] at h
        simp at h
      | ok urls =>
        simp only [hr]
        simp only [hr, TitleSearchOutcome.embedLinks.injEq] at h
        have hpairs : pairs =
            ((rank score query (dkeys st.all_titles) 75 10).map Prod.fst).zip
              urls := h.symm
        obtain ⟨hl1, hl2, hpt⟩ :=
          flow_pointwise st.all_titles pages
            (rank score query (dkeys st.all_titles) 75 10) pids urls hp hr
        have hlenmap :
            ((rank score query (dkeys st.all_titles) 75 10).map
              Prod.fst).length = urls.length := by
          rw [List.length_map, hl2]
        refine ⟨rfl, fun _ => rfl, ?_, ?_, ?_⟩
        · rw [hpairs]
          exact List.map_fst_zip _ _ (le_of_eq hlenmap)
        · rw [hpairs, List.length_zip, hlenmap, min_self, hl2]
        · intro i hi
          have hi2 : i < (rank score query (dkeys st.all_titles) 75 10).length := by
            rw [hpairs, List.length_zip, hlenmap, min_self, hl2] at hi
            exact hi
          obtain ⟨r, pid, url, h1, h2, _, h4, h5⟩ := hpt i hi2
          refine ⟨r.1, url, pid, ?_, h2, h5⟩
          rw [hpairs]
          refine zip_getElem?_of _ _ i r.1 url ?_ h4
          rw [List.getElem?_map, h1]
          rfl

/-- The snapshot used by the title-search witness. -/
def stW : WikiState :=
  { all_titles := [("Axe", 3), ("Bow", 5)], all_titles_stamp := 0 }

/-- The constant similarity metric used by the title-search witness. -/
def scoreW : String → String → Nat := fun _ _ => 80

theorem title_search_ordered_output_witness :
    ((wiki_command scoreW stW "axe" pagesW).1 =
      TitleSearchOutcome.embedLinks
        [("Axe", "https://wiki/Axe"), ("Bow", "https://wiki/Bow")]) ∧
    ((wiki_command scoreW stW "axe" pagesW).2 = 1 ∧
    (∀ pids : List Nat, (pageids_to_urls pagesW pids).requests.length = 1) ∧
    [("Axe", "https://wiki/Axe"), ("Bow", "https://wiki/Bow")].map Prod.fst =
      (rank scoreW "axe" (dkeys stW.all_titles) 75 10).map Prod.fst ∧
    [("Axe", "https://wiki/Axe"), ("Bow", "https://wiki/Bow")].length =
      (rank scoreW "axe" (dkeys stW.all_titles) 75 10).length ∧
    (∀ i, i < [("Axe", "https://wiki/Axe"), ("Bow", "https://wiki/Bow")].length →
      ∃ t url pid,
        [("Axe", "https://wiki/Axe"), ("Bow", "https://wiki/Bow")][i]? =
          some (t, url) ∧
        dlookup stW.all_titles t = some pid ∧ pagesW pid = some url)) :=
  ⟨by decide,
    title_search_ordered_output scoreW stW "axe" pagesW
      [("Axe", "https://wiki/Axe"), ("Bow", "https://wiki/Bow")] (by decide)⟩

/-! ### The fulltext flow (`wikisearch`) and snippet transformation -/

/-- Python `str.replace(pat, rep)` over character sequences: scan left to
right, replacing each non-overlapping occurrence of `pat` by `rep`. -/
def replaceAll (pat rep : List Char) : List Char → List Char
  | [] => []
  | x :: s =>
    if h : pat ≠ [] ∧ pat.isPrefixOf (x :: s) then
      rep ++ replaceAll pat rep ((x :: s).drop pat.length)
    else
      x :: replaceAll pat rep s
termination_by s => s.length
decreasing_by
  · simp only [List.length_drop, List.length_cons]
    have hlen : 1 ≤ pat.length := by
      cases hp : pat with
      | nil => exact absurd hp h.1
      | cons a l => simp
    omega
  · simp

/-- The remote's match-highlight opening marker. -/
def searchmatchOpen : String := "<span class=\"searchmatch\">"

/-- The remote's match-highlight closing marker. -/
def spanClose : String := "</span>"

/-- The neutral emphasis marker both markers are rewritten to. -/
def boldMarker : String := "**"

/-- The snippet transformation of `Wiki.wikisearch`:
`snippet.replace('<span class="searchmatch">', '**').replace('</span>', '**')`. -/
def transformSnippet (s : String) : String :=
  String.mk (replaceAll spanClose.data boldMarker.data
    (replaceAll searchmatchOpen.data boldMarker.data s.data))

/-- Shape of `response['error']['info']` as far as `''.join(...)` and the
`except ValueError` clause can observe it: absent (`KeyError` on subscript),
a string (joined to itself, i.e. surfaced verbatim), or a non-joinable value
(`TypeError` from `str.join`). -/
inductive ErrorInfo
  | missing
  | str (s : String)
  | malformed
deriving DecidableEq, Repr

/-- One item of `response['query']['search']`. -/
structure SearchHit where
  title : String
  pageid : Nat
  snippet : String
deriving DecidableEq, Repr

/-- The decoded JSON reply of the fulltext query, as far as `wikisearch`
reads it: the optional `error` object (with the shape of its `info` field),
`response['query']['searchinfo']['totalhits']` and
`response['query']['search']`. -/
structure SearchResponse where
  error : Option ErrorInfo
  totalhits : Nat
  search : List SearchHit
deriving Repr

/-- Message sent when the remote reports an error whose info was joined. -/
def searchErrorPre : String := "Sorry, that query resulted in a search error: "

/-- Message of the `except ValueError` clause. -/
def searchErrorNoInfoMsg : String :=
  "Sorry, that query resulted in a search error with no error message. Exception logged."

/-- Observable outcome of the `wikisearch` command: a plain message, an embed
of (title, url, transformed snippet) entries, an uncaught Python exception, or
the propagated URL-resolution failure. -/
inductive SearchOutcome
  | sent (msg : String)
  | embedHits (items : List (String × String × String))
  | raisedPy (e : PyExc)
  | raisedRemote (e : RemoteError)
deriving DecidableEq, Repr

/-- `Wiki.wikisearch` given the decoded fulltext reply `resp` and the
pageid → `fullurl` content `pages` of the subsequent URL-resolution reply.
The `try` block only catches `ValueError`; a missing `info` key raises
`KeyError` and a non-joinable `info` raises `TypeError`, both of which
propagate uncaught. -/
def wikisearch_command (resp : SearchResponse) (pages : Nat → Option String) :
    SearchOutcome :=
  match resp.error with
  | some info =>
    match info with
    | ErrorInfo.str s => SearchOutcome.sent (searchErrorPre ++ s)
    | ErrorInfo.missing => SearchOutcome.raisedPy PyExc.keyError
    | ErrorInfo.malformed => SearchOutcome.raisedPy PyExc.typeError
  | none =>
    if resp.totalhits = 0 then SearchOutcome.sent noMatchesMsg
    else
      match (pageids_to_urls pages (resp.search.map SearchHit.pageid)).result with
      | Except.error e => SearchOutcome.raisedRemote e
      | Except.ok urls =>
        SearchOutcome.embedHits
          ((resp.search.zip urls).map
            (fun p => (p.1.title, p.2, transformSnippet p.1.snippet)))

/-- C7: both flows answer the same no-match sentinel: the title flow when the
ranking is empty (performing no URL resolution), and the fulltext flow when
the remote reports zero total hits. -/
theorem no_matches_sentinel (score : String → String → Nat) (st : WikiState)
    (query : String) (pages pages2 : Nat → Option String)
    (resp : SearchResponse)
    (hrank : rank score query (dkeys st.all_titles) 75 10 = [])
    (herr : resp.error = none) (hhits : resp.totalhits = 0) :
    wiki_command score st query pages = (TitleSearchOutcome.sent noMatchesMsg, 0) ∧
    wikisearch_command resp pages2 = SearchOutcome.sent noMatchesMsg := by
  constructor
  · unfold wiki_command
    rw [if_pos (by rw [hrank]; rfl)]
  · unfold wikisearch_command
    rw [herr]
    simp [hhits]

/-- A fulltext reply with no error object and zero total hits. -/
def respEmpty : SearchResponse :=
  { error := none, totalhits := 0, search := [] }

theorem no_matches_sentinel_witness :
    rank scoreW "zzz" (dkeys initialState.all_titles) 75 10 = [] ∧
    respEmpty.error = none ∧ respEmpty.totalhits = 0 ∧
    (wiki_command scoreW initialState "zzz" pagesW =
      (TitleSearchOutcome.sent noMatchesMsg, 0) ∧
    wikisearch_command respEmpty pagesW = SearchOutcome.sent noMatchesMsg) :=
  ⟨by decide, rfl, rfl,
    no_matches_sentinel scoreW initialState "zzz" pagesW pagesW respEmpty
      (by decide) rfl rfl⟩

/-- C8: evaluation of `wikisearch` on remote error objects.  A structured
error with a string `info` is surfaced to the user verbatim; but when the
error object is malformed the `except ValueError` clause does not match the
exception actually raised (`KeyError` for a missing `info` key, `TypeError`
for a non-joinable one), so the command crashes with the uncaught Python
exception instead of the handled "search error with no error message"
reply. -/
theorem wikisearch_error_object_outcomes :
    wikisearch_command
        { error := some (ErrorInfo.str "bad query"), totalhits := 0,
          search := [] } pagesW =
      SearchOutcome.sent (searchErrorPre ++ "bad query") ∧
    wikisearch_command
        { error := some ErrorInfo.missing, totalhits := 0, search := [] }
        pagesW =
      SearchOutcome.raisedPy PyExc.keyError ∧
    wikisearch_command
        { error := some ErrorInfo.malformed, totalhits := 0, search := [] }
        pagesW =
      SearchOutcome.raisedPy PyExc.typeError ∧
    SearchOutcome.raisedPy PyExc.keyError ≠
      SearchOutcome.sent searchErrorNoInfoMsg := by
  refine ⟨rfl, rfl, rfl, by decide⟩

/-! ### C9: snippet marker replacement -/

theorem replaceAll_nil (pat rep : List Char) : replaceAll pat rep [] = [] := by
  rw [replaceAll]

theorem replaceAll_step_mismatch (pat rep : List Char) (x : Char)
    (s : List Char) (h : pat.isPrefixOf (x :: s) = false) :
    replaceAll pat rep (x :: s) = x :: replaceAll pat rep s := by
  rw [replaceAll]
  rw [dif_neg]
  intro hc
  rw [h] at hc
  cases hc.2

theorem replaceAll_skip (pt rep : List Char) (a : List Char) :
    ∀ t, (∀ c ∈ a, c ≠ '<') →
      replaceAll ('<' :: pt) rep (a ++ t) = a ++ replaceAll ('<' :: pt) rep t := by
  induction a with
  | nil => intro t _; rfl
  | cons x a ih =>
    intro t ha
    have hx : x ≠ '<' := ha x (List.mem_cons_self x a)
    have hpre : ('<' :: pt).isPrefixOf (x :: (a ++ t)) = false := by
      simp only [List.isPrefixOf, Bool.and_eq_false_iff]
      left
      simp only [beq_eq_false_iff_ne, ne_eq]
      exact fun hh => hx hh.symm
    rw [List.cons_append, replaceAll_step_mismatch _ _ _ _ hpre,
      ih t (fun c hc => ha c (List.mem_cons_of_mem x hc))]
    rfl

theorem replaceAll_hit (pat rep t : List Char) (hne : pat ≠ []) :
    replaceAll pat rep (pat ++ t) = rep ++ replaceAll pat rep t := by
  cases pat with
  | nil => exact absurd rfl hne
  | cons p ps =>
    rw [List.cons_append, replaceAll]
    rw [dif_pos ⟨by simp,
      List.isPrefixOf_iff_prefix.mpr (by simpa using List.prefix_append (p :: ps) t)⟩]
    rw [List.length_cons, List.drop_succ_cons, List.drop_left]

theorem replaceAll_skip_all (pt rep : List Char) (s : List Char)
    (hs : ∀ c ∈ s, c ≠ '<') : replaceAll ('<' :: pt) rep s = s := by
  have h := replaceAll_skip pt rep s [] hs
  simpa [replaceAll_nil] using h

/-- The opening marker after its leading `'<'`. -/
def openTail : List Char := "span class=\"searchmatch\">".data

/-- The closing marker after its leading `'<'`. -/
def closeTail : List Char := "/span>".data

theorem searchmatchOpen_data : searchmatchOpen.data = '<' :: openTail := rfl

theorem spanClose_data : spanClose.data = '<' :: closeTail := rfl

theorem replaceAll_skipOpen (rep a t : List Char) (ha : ∀ c ∈ a, c ≠ '<') :
    replaceAll searchmatchOpen.data rep (a ++ t) =
      a ++ replaceAll searchmatchOpen.data rep t := by
  rw [searchmatchOpen_data]
  exact replaceAll_skip openTail rep a t ha

theorem replaceAll_skipClose (rep a t : List Char) (ha : ∀ c ∈ a, c ≠ '<') :
    replaceAll spanClose.data rep (a ++ t) =
      a ++ replaceAll spanClose.data rep t := by
  rw [spanClose_data]
  exact replaceAll_skip closeTail rep a t ha

theorem replaceAll_hitOpen (rep t : List Char) :
    replaceAll searchmatchOpen.data rep (searchmatchOpen.data ++ t) =
      rep ++ replaceAll searchmatchOpen.data rep t :=
  replaceAll_hit _ _ _ (by rw [searchmatchOpen_data]; simp)

theorem replaceAll_hitClose (rep t : List Char) :
    replaceAll spanClose.data rep (spanClose.data ++ t) =
      rep ++ replaceAll spanClose.data rep t :=
  replaceAll_hit _ _ _ (by rw [spanClose_data]; simp)

theorem replaceAll_openFree (rep s : List Char) (hs : ∀ c ∈ s, c ≠ '<') :
    replaceAll searchmatchOpen.data rep s = s := by
  rw [searchmatchOpen_data]
  exact replaceAll_skip_all openTail rep s hs

theorem replaceAll_closeFree (rep s : List Char) (hs : ∀ c ∈ s, c ≠ '<') :
    replaceAll spanClose.data rep s = s := by
  rw [spanClose_data]
  exact replaceAll_skip_all closeTail rep s hs

/-- Replacing the opening marker walks over a closing marker unchanged: the
two markers disagree at their second character. -/
theorem replaceAll_open_skips_close (rep : List Char) (R : List Char) :
    replaceAll searchmatchOpen.data rep (spanClose.data ++ R) =
      spanClose.data ++ replaceAll searchmatchOpen.data rep R := by
  have h2 : searchmatchOpen.data.isPrefixOf ('<' :: (closeTail ++ R)) = false := by
    rw [show searchmatchOpen.data = '<' :: 's' :: "pan class=\"searchmatch\">".data
      from rfl]
    rw [show closeTail ++ R = '/' :: ("span>".data ++ R) from rfl]
    simp only [List.isPrefixOf, Bool.and_eq_false_iff]
    right
    left
    decide
  rw [spanClose_data, List.cons_append, replaceAll_step_mismatch _ _ _ _ h2,
    searchmatchOpen_data, replaceAll_skip openTail rep closeTail R (by decide)]
  rfl

/-- A snippet assembled from `(plain, highlighted)` segments: each segment
contributes its plain text followed by its highlight wrapped in the remote's
markers. -/
def buildRaw : List (List Char × List Char) → List Char → List Char
  | [], tail => tail
  | (pre, mid) :: rest, tail =>
    pre ++ searchmatchOpen.data ++ mid ++ spanClose.data ++ buildRaw rest tail

/-- The same snippet after the opening markers only have been rewritten. -/
def buildHalf : List (List Char × List Char) → List Char → List Char
  | [], tail => tail
  | (pre, mid) :: rest, tail =>
    pre ++ boldMarker.data ++ mid ++ spanClose.data ++ buildHalf rest tail

/-- The same snippet with both markers rewritten to the neutral marker. -/
def buildMarked : List (List Char × List Char) → List Char → List Char
  | [], tail => tail
  | (pre, mid) :: rest, tail =>
    pre ++ boldMarker.data ++ mid ++ boldMarker.data ++ buildMarked rest tail

theorem replaceOpen_buildRaw (parts : List (List Char × List Char)) :
    ∀ tail, (∀ p ∈ parts, (∀ c ∈ p.1, c ≠ '<') ∧ (∀ c ∈ p.2, c ≠ '<')) →
      (∀ c ∈ tail, c ≠ '<') →
      replaceAll searchmatchOpen.data boldMarker.data (buildRaw parts tail) =
        buildHalf parts tail := by
  induction parts with
  | nil =>
    intro tail _ htail
    rw [buildRaw, buildHalf, replaceAll_openFree _ _ htail]
  | cons p rest ih =>
    intro tail hfree htail
    obtain ⟨pre, mid⟩ := p
    have hp := hfree (pre, mid) (List.mem_cons_self _ _)
    rw [buildRaw, buildHalf]
    simp only [List.append_assoc]
    rw [replaceAll_skipOpen _ pre _ hp.1, replaceAll_hitOpen,
      replaceAll_skipOpen _ mid _ hp.2, replaceAll_open_skips_close,
      ih tail (fun q hq => hfree q (List.mem_cons_of_mem _ hq)) htail]

theorem replaceClose_buildHalf (parts : List (List Char × List Char)) :
    ∀ tail, (∀ p ∈ parts, (∀ c ∈ p.1, c ≠ '<') ∧ (∀ c ∈ p.2, c ≠ '<')) →
      (∀ c ∈ tail, c ≠ '<') →
      replaceAll spanClose.data boldMarker.data (buildHalf parts tail) =
        buildMarked parts tail := by
  induction parts with
  | nil =>
    intro tail _ htail
    rw [buildHalf, buildMarked, replaceAll_closeFree _ _ htail]
  | cons p rest ih =>
    intro tail hfree htail
    obtain ⟨pre, mid⟩ := p
    have hp := hfree (pre, mid) (List.mem_cons_self _ _)
    rw [buildHalf, buildMarked]
    simp only [List.append_assoc]
    rw [replaceAll_skipClose _ pre _ hp.1,
      replaceAll_skipClose _ boldMarker.data _ (by decide),
      replaceAll_skipClose _ mid _ hp.2, replaceAll_hitClose,
      ih tail (fun q hq => hfree q (List.mem_cons_of_mem _ hq)) htail]

/-- C9: the snippet transformation rewrites every occurrence of the remote's
opening marker and every `'</span>'` to `'**'`: a snippet assembled from any
number of `(plain, highlighted)` segments (none containing a `'<'`) maps to
the same segments with both markers replaced by the neutral `'**'`, balanced
across multiple matches. -/
theorem snippet_transform_marks (parts : List (List Char × List Char))
    (tail : List Char)
    (hfree : ∀ p ∈ parts, (∀ c ∈ p.1, c ≠ '<') ∧ (∀ c ∈ p.2, c ≠ '<'))
    (htail : ∀ c ∈ tail, c ≠ '<') :
    transformSnippet (String.mk (buildRaw parts tail)) =
      String.mk (buildMarked parts tail) := by
  unfold transformSnippet
  rw [show (String.mk (buildRaw parts tail)).data = buildRaw parts tail from rfl,
    replaceOpen_buildRaw parts tail hfree htail,
    replaceClose_buildHalf parts tail hfree htail]

theorem snippet_transform_marks_witness :
    (∀ p ∈ [("in the ".data, "dark".data), (" and ".data, "light".data)],
      (∀ c ∈ p.1, c ≠ '<') ∧ (∀ c ∈ p.2, c ≠ '<')) ∧
    (∀ c ∈ " cave".data, c ≠ '<') ∧
    transformSnippet (String.mk (buildRaw
        [("in the ".data, "dark".data), (" and ".data, "light".data)]
        " cave".data)) =
      String.mk (buildMarked
        [("in the ".data, "dark".data), (" and ".data, "light".data)]
        " cave".data) :=
  ⟨by decide, by decide,
    snippet_transform_marks
      [("in the ".data, "dark".data), (" and ".data, "light".data)]
      " cave".data (by decide) (by decide)⟩

/-! ### C10: concurrent refresh callers -/

/-- Control point of one asyncio task executing `refresh_titles_cache`:
about to run the (synchronous) freshness check, suspended awaiting
`read_titles` of the head namespace with the local `new_titles`
accumulated so far, or returned.  Control may pass to the other task at
every await; the freshness check, each `new_titles.update`, and the two
publishing assignments are synchronous. -/
inductive RefreshPC
  | ready
  | fetching (remaining : List Nat) (acc : List (String × Nat))
  | finished
deriving DecidableEq, Repr

/-- One step of a task: runs from its current control point to the next
suspension point (or to the end), returning the new shared state, the new
control point, and the HTTP requests dispatched by the step.  The scenario
happens within one instant of the monotonic clock, `now`. -/
def coroStep (env : Nat → List (Option ListResponse)) (now : Nat)
    (sh : WikiState) : RefreshPC → WikiState × RefreshPC × Nat
  | RefreshPC.ready =>
    if sh.all_titles ≠ [] ∧ now - sh.all_titles_stamp < cacheTTL then
      (sh, RefreshPC.finished, 0)
    else
      (sh, RefreshPC.fetching namespaces [], 0)
  | RefreshPC.fetching [] acc =>
    ({ all_titles := acc, all_titles_stamp := now }, RefreshPC.finished, 0)
  | RefreshPC.fetching (ns :: rest) acc =>
    match read_titles env ns with
    | (none, n) => (sh, RefreshPC.finished, n)
    | (some m, n) => (sh, RefreshPC.fetching rest (dupdate acc m), n)
  | RefreshPC.finished => (sh, RefreshPC.finished, 0)

/-- Shared cache state, the two tasks, and the total HTTP requests
dispatched so far. -/
structure ConcState where
  shared : WikiState
  c1 : RefreshPC
  c2 : RefreshPC
  requests : Nat
deriving DecidableEq, Repr

/-- The scheduler advances the picked task by one step. -/
def schedStep (env : Nat → List (Option ListResponse)) (now : Nat)
    (s : ConcState) (pick : Bool) : ConcState :=
  if pick then
    let r := coroStep env now s.shared s.c1
    { shared := r.1, c1 := r.2.1, c2 := s.c2, requests := s.requests + r.2.2 }
  else
    let r := coroStep env now s.shared s.c2
    { shared := r.1, c1 := s.c1, c2 := r.2.1, requests := s.requests + r.2.2 }

/-- Run a whole interleaving. -/
def runSched (env : Nat → List (Option ListResponse)) (now : Nat)
    (sched : List Bool) (s : ConcState) : ConcState :=
  sched.foldl (schedStep env now) s

/-- The mapping a full solitary refresh would publish. -/
def refreshUnion (env : Nat → List (Option ListResponse)) :
    Option (List (String × Nat)) :=
  (refresh_go env [] namespaces).1

/-- C10 counterexample: with one stale cache and the plain one-batch
environment, a solitary refresh dispatches 2 requests, but the interleaving
in which the second caller runs its freshness check while the first is still
awaiting its fetches makes both callers run the full fetch sequence: 4
requests — concurrent callers do duplicate the remote work. -/
theorem concurrent_refresh_duplicate_fetches_cex :
    (refresh_titles_cache initialState 0 envPlain).fetches = 2 ∧
    (runSched envPlain 0 [true, true, false, false, true, true, false, false]
        { shared := initialState, c1 := RefreshPC.ready, c2 := RefreshPC.ready,
          requests := 0 }).requests = 4 ∧
    (runSched envPlain 0 [true, true, false, false, true, true, false, false]
        { shared := initialState, c1 := RefreshPC.ready, c2 := RefreshPC.ready,
          requests := 0 }).c1 = RefreshPC.finished ∧
    (runSched envPlain 0 [true, true, false, false, true, true, false, false]
        { shared := initialState, c1 := RefreshPC.ready, c2 := RefreshPC.ready,
          requests := 0 }).c2 = RefreshPC.finished ∧
    2 < 4 := by
  decide

/-- Invariant of one task: while fetching, running the remaining loop from
the accumulated `new_titles` yields exactly the solitary refresh's result. -/
def pcInv (env : Nat → List (Option ListResponse)) : RefreshPC → Prop
  | RefreshPC.fetching rest acc => (refresh_go env acc rest).1 = refreshUnion env
  | _ => True

/-- Invariant of the shared state: either untouched, or the complete
solitary-refresh snapshot. -/
def sharedInv (env : Nat → List (Option ListResponse)) (now : Nat)
    (st0 sh : WikiState) : Prop :=
  sh = st0 ∨ ∃ m, refreshUnion env = some m ∧
    sh = { all_titles := m, all_titles_stamp := now }

/-- Invariant of a whole configuration. -/
def stInv (env : Nat → List (Option ListResponse)) (now : Nat)
    (st0 : WikiState) (s : ConcState) : Prop :=
  sharedInv env now st0 s.shared ∧ pcInv env s.c1 ∧ pcInv env s.c2

theorem coroStep_preserves (env : Nat → List (Option ListResponse)) (now : Nat)
    (st0 sh : WikiState) (pc : RefreshPC)
    (hsh : sharedInv env now st0 sh) (hpc : pcInv env pc) :
    sharedInv env now st0 (coroStep env now sh pc).1 ∧
    pcInv env (coroStep env now sh pc).2.1 := by
  cases pc with
  | ready =>
    by_cases hc : sh.all_titles ≠ [] ∧ now - sh.all_titles_stamp < cacheTTL
    · simp only [coroStep, if_pos hc]
      exact ⟨hsh, trivial⟩
    · simp only [coroStep, if_neg hc]
      exact ⟨hsh, rfl⟩
  | fetching rest acc =>
    cases rest with
    | nil =>
      simp only [coroStep]
      refine ⟨Or.inr ⟨acc, ?_, rfl⟩, trivial⟩
      have : (refresh_go env acc []).1 = some acc := rfl
      rw [← hpc, this]
    | cons ns rest2 =>
      cases hrt : read_titles env ns with
      | mk o n =>
        cases o with
        | none =>
          simp only [coroStep, hrt]
          exact ⟨hsh, trivial⟩
        | some m =>
          simp only [coroStep, hrt]
          refine ⟨hsh, ?_⟩
          have hstep : (refresh_go env acc (ns :: rest2)).1 =
              (refresh_go env (dupdate acc m) rest2).1 := by
            simp only [refresh_go, hrt]
          show (refresh_go env (dupdate acc m) rest2).1 = refreshUnion env
          rw [← hstep]
          exact hpc
  | finished => exact ⟨hsh, trivial⟩

theorem schedStep_preserves (env : Nat → List (Option ListResponse))
    (now : Nat) (st0 : WikiState) (s : ConcState) (pick : Bool)
    (h : stInv env now st0 s) :
    stInv env now st0 (schedStep env now s pick) := by
  obtain ⟨hsh, h1, h2⟩ := h
  cases pick with
  | true =>
    obtain ⟨hsh2, hpc2⟩ := coroStep_preserves env now st0 s.shared s.c1 hsh h1
    exact ⟨hsh2, hpc2, h2⟩
  | false =>
    obtain ⟨hsh2, hpc2⟩ := coroStep_preserves env now st0 s.shared s.c2 hsh h2
    exact ⟨hsh2, h1, hpc2⟩

theorem runSched_preserves (env : Nat → List (Option ListResponse))
    (now : Nat) (st0 : WikiState) (sched : List Bool) :
    ∀ s, stInv env now st0 s → stInv env now st0 (runSched env now sched s) := by
  induction sched with
  | nil => intro s h; exact h
  | cons pick sched ih =>
    intro s h
    exact ih _ (schedStep_preserves env now st0 s pick h)

/-- C10 amended: concurrent callers of `refresh_titles_cache` are not
single-flighted — an interleaving exists in which every caller runs its own
full fetch sequence (see the counterexample) — but publication remains
atomic: after any interleaving of two callers on any initial cache state,
the shared state is either still the initial one or exactly the complete
solitary-refresh snapshot; no reader ever observes a partial merge. -/
theorem concurrent_refresh_atomic_snapshot
    (env : Nat → List (Option ListResponse)) (now : Nat) (st0 : WikiState)
    (sched : List Bool) :
    (runSched env now sched
        { shared := st0, c1 := RefreshPC.ready, c2 := RefreshPC.ready,
          requests := 0 }).shared = st0 ∨
    ∃ m, refreshUnion env = some m ∧
      (runSched env now sched
          { shared := st0, c1 := RefreshPC.ready, c2 := RefreshPC.ready,
            requests := 0 }).shared =
        { all_titles := m, all_titles_stamp := now } := by
  have h := runSched_preserves env now st0 sched
    { shared := st0, c1 := RefreshPC.ready, c2 := RefreshPC.ready,
      requests := 0 } ⟨Or.inl rfl, trivial, trivial⟩
  exact h.1
